import Mathlib

/-!
Shallow embedding of the zj-go-tests plugin sources (`main.rs`, `tests_screen.rs`,
`logs_screen.rs`): the Go-test event aggregator, the report screen's
filter/navigation logic, and the log screen's incremental search, together with
theorems settling the specification's claims about them.
-/

namespace ZjGoTests

/-- `TestResult` from `main.rs` (also used by the screen modules). -/
inductive TestResult
  | pass
  | fail
  | skip
deriving DecidableEq

/-- `Action` from `main.rs`. -/
inductive Action
  | start
  | run
  | output
  | pass
  | fail
  | skip
deriving DecidableEq

/-- `TryFrom<Action> for TestResult` (`main.rs`): `Ok` modelled as `some`,
`Err` as `none`. -/
def Action.toTestResult? : Action → Option TestResult
  | .pass => some .pass
  | .fail => some .fail
  | .skip => some .skip
  | _ => none

/-- `TestLine` from `main.rs`: one deserialized Go-test JSON line. -/
structure TestLine where
  action : Option Action
  package : Option String
  test : Option String
  output : Option String
deriving DecidableEq

/-- Models `iter_mut().find(p)` followed by mutating the found element with `f`:
`some` of the updated list when an element matches, `none` when no element does. -/
def updateFirst (p : α → Bool) (f : α → α) : List α → Option (List α)
  | [] => none
  | x :: xs => if p x then some (f x :: xs) else (updateFirst p f xs).map (x :: ·)

namespace Main

/-- `TestCase` from `main.rs`. -/
structure TestCase where
  name : String
  result : Option TestResult
  log : List String
deriving DecidableEq

/-- `Package` from `main.rs`. -/
structure Package where
  name : String
  result : Option TestResult
  tests : List TestCase
  log : List String
deriving DecidableEq

/-- The terminal-event (`Pass`/`Fail`/`Skip`) branch of `pipe` (`main.rs` lines
110–128): find the first package whose name equals the line's `package` field;
inside it, find the first test whose name equals the line's `test` field; set the
test's `result` when found, otherwise set the package's own `result`. -/
def applyTerminal (r : TestResult) (pname : String) (test? : Option String)
    (pkgs : List Package) : List Package :=
  (updateFirst (fun p => p.name == pname)
    (fun p =>
      match updateFirst (fun t => test? == some t.name) (fun t => { t with result := some r })
          p.tests with
      | some ts => { p with tests := ts }
      | none => { p with result := some r })
    pkgs).getD pkgs

/-- `GoTestsPlugin::pipe` (`main.rs`) acting on an already-deserialized
`TestLine` (JSON transport is external).  Returns `none` exactly where the Rust
code panics (a failed `expect`).  The `expect` on the `package` field sits
inside the `find` closure, so it fires only when the package list is
non-empty. -/
def pipe (pkgs : List Package) (line : TestLine) : Option (List Package) :=
  match line.action with
  | some .start =>
    match line.package with
    | some n => some (pkgs ++ [{ name := n, result := none, tests := [], log := [] }])
    | none => none
  | some .run =>
    match line.package with
    | none => if pkgs.isEmpty then some pkgs else none
    | some pname =>
      if pkgs.any (fun p => p.name == pname) then
        match line.test with
        | some tname =>
          updateFirst (fun p => p.name == pname)
            (fun p => { p with tests := p.tests ++ [{ name := tname, result := none, log := [] }] })
            pkgs
        | none => none
      else some pkgs
  | some .output =>
    match line.package with
    | none => if pkgs.isEmpty then some pkgs else none
    | some pname =>
      match line.test with
      | some tname =>
        match pkgs.find? (fun p => p.name == pname) with
        | some p0 =>
          if p0.tests.any (fun t => t.name == tname) then
            match line.output with
            | some o =>
              updateFirst (fun p => p.name == pname)
                (fun p =>
                  { p with tests :=
                      (updateFirst (fun t => t.name == tname)
                        (fun t => { t with log := t.log ++ [o] }) p.tests).getD p.tests })
                pkgs
            | none => none
          else some pkgs
        | none => some pkgs
      | none =>
        if pkgs.any (fun p => p.name == pname) then
          match line.output with
          | some o =>
            updateFirst (fun p => p.name == pname)
              (fun p => { p with log := p.log ++ [o] }) pkgs
          | none => none
        else some pkgs
  | some a =>
    match a.toTestResult? with
    | some r =>
      match line.package with
      | some pname => some (applyTerminal r pname line.test pkgs)
      | none => if pkgs.isEmpty then some pkgs else none
    | none => some pkgs
  | none => some pkgs

end Main

/-- Modelled from the spec: the `Default` instance of `TestResult` consumed by
`unwrap_or_default()` in `tests_screen.rs` lives in the crate root, which is not
among the source files.  Spec §3 gives no variant either (it asks for "always
visible", which no single default variant can realize), so one fixed variant is
modelled here; every claim settled through it is insensitive to which variant is
chosen. -/
def defaultResult : TestResult := .pass

/-- Modelled from the spec: the crate-root `TestCase` used by `tests_screen.rs`
(it carries `elapsed`, which `main.rs`'s older `TestCase` lacks) is not among
the source files; fields per spec §3, with the float `elapsed` rendered as a
rational number of seconds. -/
structure TestCase where
  name : String
  result : Option TestResult
  elapsed : Option Rat
  log : List String
deriving DecidableEq

/-- Modelled from the spec: the crate-root `Package` used by `tests_screen.rs`;
fields per spec §3 (see `TestCase` above). -/
structure Package where
  name : String
  result : Option TestResult
  elapsed : Option Rat
  tests : List TestCase
  log : List String
deriving DecidableEq

/-- The data handed to the host's `Text` drawing primitive: content string, an
optional `color_range` annotation `(color, range start, range end)`, and the
`selected` highlight flag. -/
structure Text where
  content : String
  colorRange : Option (Nat × Nat × Nat)
  sel : Bool
deriving DecidableEq

/-- `Text::new`. -/
def Text.new (s : String) : Text := ⟨s, none, false⟩

/-- `Text::selected`. -/
def Text.selected (t : Text) : Text := { t with sel := true }

/-- `Text::color_range(color, a..b)`. -/
def Text.color_range (t : Text) (c a b : Nat) : Text := { t with colorRange := some (c, a, b) }

/-- Modelled from the spec: `TestResult::marker_color_and_char` is called from
`tests_screen.rs` but defined in the crate root, which is not among the source
files; spec §6 asks for a per-result marker character and color, so a fixed
injective assignment is modelled. -/
def TestResult.marker_color_and_char : TestResult → Nat × Char
  | .pass => (2, 'P')
  | .fail => (1, 'F')
  | .skip => (3, 'S')

/-- Modelled from the spec: the display text `format!("{}s", elapsed)` for the
float `elapsed`; float formatting is approximated on the rational model. -/
def fmtElapsed (q : Rat) : String := toString q ++ "s"

/-- `Mode` from `logs_screen.rs`. -/
inductive Mode
  | normal
  | search (q : String)
deriving DecidableEq

/-- `Search` from `logs_screen.rs`: each match is
`(line_index, range.start, range.end)`.  The Rust field is named `matches`,
which is a reserved word in Lean, hence `matches'`. -/
structure Search where
  matches' : List (Nat × Nat × Nat)
  current_index : Option Nat
deriving DecidableEq

/-- `LogsScreen` from `logs_screen.rs`. -/
structure LogsScreen where
  logs : List String
  scroll_x : Nat
  scroll_y : Nat
  screen_width : Option Nat
  screen_height : Option Nat
  mode : Mode
  search_result : Search
deriving DecidableEq

/-- `LogsScreen::new` (`Default` fields except `logs`). -/
def LogsScreen.new (logs : List String) : LogsScreen :=
  ⟨logs, 0, 0, none, none, .normal, ⟨[], none⟩⟩

/-- `ResultFilters` from `tests_screen.rs`. -/
structure ResultFilters where
  pass : Bool
  fail : Bool
  skip : Bool
deriving DecidableEq

/-- `TestsScreen` from `tests_screen.rs`. -/
structure TestsScreen where
  packages : List Package
  selected_index : Nat
  scroll_x : Nat
  scroll_y : Nat
  result_filters : ResultFilters
deriving DecidableEq

/-- `ListItem` from `tests_screen.rs`; the Rust borrow is modelled by carrying
the referenced value. -/
inductive ListItem
  | package (p : Package)
  | testCase (t : TestCase)
deriving DecidableEq

/-- `TestsScreen::is_test_visible`: the `matches!` over
`(result_filters, test_result)`. -/
def is_test_visible (filters : ResultFilters) (r : TestResult) : Bool :=
  match filters, r with
  | ⟨false, false, false⟩, _ => true
  | ⟨true, _, _⟩, .pass => true
  | ⟨_, true, _⟩, .fail => true
  | ⟨_, _, true⟩, .skip => true
  | _, _ => false

/-- `TestsScreen::visible_list_items`: packages passing the filter (unset
results replaced by the default), each followed by its tests passing the
filter. -/
def visible_list_items (s : TestsScreen) : List ListItem :=
  (s.packages.filter fun p => is_test_visible s.result_filters (p.result.getD defaultResult)).flatMap
    fun p =>
      ListItem.package p ::
        (p.tests.filter fun t => is_test_visible s.result_filters (t.result.getD defaultResult)).map
          ListItem.testCase

/-- `ListItem::render`. -/
def ListItem.render (li : ListItem) (is_last_element : Bool) : List Text :=
  match li with
  | .package p =>
    let pr := (p.result.getD .skip).marker_color_and_char
    [Text.color_range (Text.new (toString pr.2 ++ " " ++ p.name)) pr.1 0 1,
     (p.elapsed.map fun e => Text.new (fmtElapsed e)).getD (Text.new " ")]
  | .testCase t =>
    let border : Char := if is_last_element then '└' else '├'
    let pr := (t.result.getD .skip).marker_color_and_char
    [Text.color_range (Text.new (toString border ++ " " ++ toString pr.2 ++ " " ++ t.name)) pr.1 2 3,
     (t.elapsed.map fun e => Text.new (fmtElapsed e)).getD (Text.new " ")]

/-- `TestsScreen::render_list_items`. -/
def render_list_items (s : TestsScreen) : List (List Text) :=
  let list_items := visible_list_items s
  list_items.enum.map fun p =>
    p.2.render
      (((list_items.get? (p.1 + 1)).map fun next =>
          match next with
          | .package _ => true
          | _ => false).getD true)

/-- The `Key` variants of the zellij API version used by `tests_screen.rs`. -/
inductive Key
  | down
  | up
  | left
  | right
  | char (c : Char)
deriving DecidableEq

/-- The zellij `Event` as consumed by `tests_screen.rs` (`Key` events plus the
wildcard rest). -/
inductive TEvent
  | key (k : Key)
  | other
deriving DecidableEq

/-- `tests_screen.rs`'s `UpdateCommand`. -/
inductive TUpdateCommand
  | showLogsScreen (s : LogsScreen)
  | render
deriving DecidableEq

/-- The log lines handed to `LogsScreen::new` by the `Enter` handler: the
selected item's `log`. -/
def ListItem.itemLog : ListItem → List String
  | .package p => p.log
  | .testCase t => t.log

/-- `TestsScreen::update`. -/
def TestsScreen.update (s : TestsScreen) (e : TEvent) : TestsScreen × Option TUpdateCommand :=
  let moveDown :=
    let ni := min (s.selected_index + 1) ((visible_list_items s).length - 1)
    ({ s with selected_index := ni }, some TUpdateCommand.render)
  let moveUp := ({ s with selected_index := s.selected_index - 1 }, some TUpdateCommand.render)
  let moveLeft := ({ s with scroll_x := s.scroll_x - 1 }, some TUpdateCommand.render)
  let moveRight := ({ s with scroll_x := min (s.scroll_x + 1) 1 }, some TUpdateCommand.render)
  match e with
  | .key .down => moveDown
  | .key .up => moveUp
  | .key .left => moveLeft
  | .key .right => moveRight
  | .key (.char c) =>
    if c = 'j' then moveDown
    else if c = 'k' then moveUp
    else if c = 'h' then moveLeft
    else if c = 'l' then moveRight
    else if c = '\n' then
      (s, ((visible_list_items s).get? s.selected_index).map fun li =>
        TUpdateCommand.showLogsScreen (LogsScreen.new li.itemLog))
    else if c = '1' then
      ({ s with result_filters := { s.result_filters with pass := !s.result_filters.pass } },
        some TUpdateCommand.render)
    else if c = '2' then
      ({ s with result_filters := { s.result_filters with fail := !s.result_filters.fail } },
        some TUpdateCommand.render)
    else if c = '3' then
      ({ s with result_filters := { s.result_filters with skip := !s.result_filters.skip } },
        some TUpdateCommand.render)
    else (s, none)
  | .other => (s, none)

/-- The auto-scroll adjustment at the head of `TestsScreen::render`:
`bottom_index = scroll_y + rows - 2`; advance `scroll_y` by the overshoot when
the selection is below the window, retreat by the undershoot when above. -/
def autoScrollY (selected scroll rows : Nat) : Nat :=
  if selected > scroll + rows - 2 then scroll + (selected - (scroll + rows - 2))
  else if selected < scroll then scroll - (scroll - selected)
  else scroll

/-- The data `TestsScreen::render` hands to the drawing primitives: the header
row, the visible table rows (selection highlight applied), and the three filter
ribbons with their x coordinates. -/
structure TestsRender where
  header : List String
  body : List (List Text)
  ribbons : List (Text × Nat)
  size : Nat × Nat
deriving DecidableEq

/-- `TestsScreen::render`: auto-scroll, then project the visible slice of
`render_list_items` and the filter ribbons. -/
def TestsScreen.render (s : TestsScreen) (rows cols : Nat) : TestsScreen × TestsRender :=
  let s' := { s with scroll_y := autoScrollY s.selected_index s.scroll_y rows }
  let table_rows := render_list_items s'
  let body := ((table_rows.enum.drop s'.scroll_y).take (rows - 2)).map fun p =>
    if p.1 = s'.selected_index then (p.2.drop s'.scroll_x).map Text.selected
    else p.2.drop s'.scroll_x
  let header := (["package", "elapsed"]).drop s'.scroll_x
  let passRibbon := Text.new "[1] pass"
  let failRibbon := Text.new "[2] fail"
  let skipRibbon := Text.new "[3] skip"
  let ribbons :=
    [((if s'.result_filters.pass then passRibbon.selected else passRibbon), 0),
     ((if s'.result_filters.fail then failRibbon.selected else failRibbon), 13),
     ((if s'.result_filters.skip then skipRibbon.selected else skipRibbon), 26)]
  (s', { header := header, body := body, ribbons := ribbons, size := (cols, rows) })

/-- `str::match_indices` (non-empty needle `n0 :: nrest`), as used by the
search recomputation: scan left to right from `pos`; on a prefix match emit
`(pos, needle length)` — all the Rust closure reads off the matched `&str` is
its length — and resume after the end of the match.  The first argument is
fuel, always called with `hay.length + 1`; every step consumes at least one
haystack character, so the fuel is never exhausted (`miGo_fuel` below). -/
def miGo (n0 : Char) (nrest : List Char) : Nat → Nat → List Char → List (Nat × Nat)
  | 0, _, _ => []
  | _ + 1, _, [] => []
  | fuel + 1, pos, c :: rest =>
    if (n0 :: nrest).isPrefixOf (c :: rest) then
      (pos, nrest.length + 1) ::
        miGo n0 nrest fuel (pos + (nrest.length + 1)) (rest.drop nrest.length)
    else
      miGo n0 nrest fuel (pos + 1) rest

/-- The fuel in `miGo` is irrelevant as soon as it exceeds the haystack
length: the scan below runs out of haystack before it runs out of fuel. -/
theorem miGo_fuel (n0 : Char) (nrest : List Char) :
    ∀ fuel fuel' pos (hay : List Char), hay.length < fuel → hay.length < fuel' →
      miGo n0 nrest fuel pos hay = miGo n0 nrest fuel' pos hay := by
  intro fuel
  induction fuel with
  | zero => intro fuel' pos hay h _; omega
  | succ f ih =>
    intro fuel' pos hay h h'
    match fuel', hay with
    | 0, _ => omega
    | f' + 1, [] => rfl
    | f' + 1, c :: rest =>
      simp only [List.length_cons] at h h'
      simp only [miGo]
      split
      · have h1 : (rest.drop nrest.length).length < f := by
          simp only [List.length_drop]; omega
        have h2 : (rest.drop nrest.length).length < f' := by
          simp only [List.length_drop]; omega
        exact congrArg _ (ih f' _ _ h1 h2)
      · exact ih f' (pos + 1) rest (by omega) (by omega)

/-- `str::match_indices(needle)` on a haystack, yielding
`(byte start, matched length)` pairs; offsets count characters, which
coincides with Rust's byte offsets on the ASCII inputs considered.  An empty
needle matches at every boundary, as in Rust. -/
def rustMatchIndices (needle hay : List Char) : List (Nat × Nat) :=
  match needle with
  | [] => (List.range (hay.length + 1)).map fun i => (i, 0)
  | n0 :: nrest => miGo n0 nrest (hay.length + 1) 0 hay

/-- The recomputation of `search_result.matches` in the `Mode::Search` char
handler (`logs_screen.rs` lines 171–180): for every log line, every
`match_indices` hit `(start_idx, needle)` becomes
`(line index, start_idx, needle.len())` — the faithful image of the source's
`(idx, start_idx..(needle.len()))`. -/
def recompute (q : String) (logs : List String) : List (Nat × Nat × Nat) :=
  logs.enum.flatMap fun p =>
    (rustMatchIndices q.toList p.2.toList).map fun m => (p.1, m.1, m.2)

/-- The `BareKey` variants of the zellij API version used by
`logs_screen.rs` (modifiers are ignored by every pattern there, so the key
alone is modelled). -/
inductive BareKey
  | esc
  | enter
  | down
  | up
  | left
  | right
  | pageDown
  | pageUp
  | backspace
  | char (c : Char)
deriving DecidableEq

/-- The zellij `Event` as consumed by `logs_screen.rs`. -/
inductive LEvent
  | key (k : BareKey)
  | other
deriving DecidableEq

/-- `logs_screen.rs`'s `UpdateCommand`. -/
inductive LUpdateCommand
  | exitScreen
  | render
deriving DecidableEq

/-- The `Down`/`'j'` arm of `LogsScreen::update` in `Mode::Normal`. -/
def logsScrollDown (s : LogsScreen) : LogsScreen × Option LUpdateCommand :=
  ({ s with scroll_y := min (s.scroll_y + 1) (s.logs.length - 1) }, some .render)

/-- The `Up`/`'k'` arm. -/
def logsScrollUp (s : LogsScreen) : LogsScreen × Option LUpdateCommand :=
  ({ s with scroll_y := s.scroll_y - 1 }, some .render)

/-- The `PageDown`/`'d'` arm: half a screen down when the height is known. -/
def logsHalfDown (s : LogsScreen) : LogsScreen × Option LUpdateCommand :=
  match s.screen_height with
  | some h => ({ s with scroll_y := min (s.scroll_y + h / 2) (s.logs.length - 1) }, some .render)
  | none => (s, some .render)

/-- The `PageUp`/`'u'` arm. -/
def logsHalfUp (s : LogsScreen) : LogsScreen × Option LUpdateCommand :=
  match s.screen_height with
  | some h => ({ s with scroll_y := s.scroll_y - h / 2 }, some .render)
  | none => (s, some .render)

/-- The `'f'` arm: a full screen down when the height is known. -/
def logsFullDown (s : LogsScreen) : LogsScreen × Option LUpdateCommand :=
  match s.screen_height with
  | some h => ({ s with scroll_y := min (s.scroll_y + h) (s.logs.length - 1) }, some .render)
  | none => (s, some .render)

/-- The `'b'` arm. -/
def logsFullUp (s : LogsScreen) : LogsScreen × Option LUpdateCommand :=
  match s.screen_height with
  | some h => ({ s with scroll_y := s.scroll_y - h }, some .render)
  | none => (s, some .render)

/-- The `'n'` arm: clamp `current_index` one step up and scroll to that match's
line.  The Rust direct indexing `matches[*current_index]` is modelled with
`getD`; the search-state invariant (claim C10) shows the index is in bounds, so
the default is never consulted. -/
def nextMatch (s : LogsScreen) : LogsScreen × Option LUpdateCommand :=
  match s.search_result.current_index with
  | some ci =>
    let ci' := min (ci + 1) (s.search_result.matches'.length - 1)
    ({ s with
        search_result := { s.search_result with current_index := some ci' },
        scroll_y := (s.search_result.matches'.getD ci' (0, 0, 0)).1 }, some .render)
  | none => (s, none)

/-- The `'N'` arm, symmetric to `nextMatch` with `saturating_sub(1)`. -/
def prevMatch (s : LogsScreen) : LogsScreen × Option LUpdateCommand :=
  match s.search_result.current_index with
  | some ci =>
    let ci' := ci - 1
    ({ s with
        search_result := { s.search_result with current_index := some ci' },
        scroll_y := (s.search_result.matches'.getD ci' (0, 0, 0)).1 }, some .render)
  | none => (s, none)

/-- The `Mode::Search` char arm (`logs_screen.rs` lines 166–188): push the
char, recompute the matches, and reset `current_index`/`scroll_y` from the
first match when there is one. -/
def pushChar (s : LogsScreen) (q : String) (c : Char) : LogsScreen × Option LUpdateCommand :=
  let q' := q.push c
  match recompute q' s.logs with
  | head :: tl =>
    ({ s with
        mode := .search q',
        scroll_y := head.1,
        search_result := { matches' := head :: tl, current_index := some 0 } }, some .render)
  | [] =>
    ({ s with
        mode := .search q',
        search_result := { matches' := [], current_index := none } }, some .render)

/-- The `BareKey::Char(c)` dispatch of `LogsScreen::update` in `Mode::Normal`
(the alternation patterns `Down | Char('j')` etc. of the source are split into
their key half, above, and this char half). -/
def logsNormalChar (s : LogsScreen) (c : Char) : LogsScreen × Option LUpdateCommand :=
  if c = 'j' then logsScrollDown s
  else if c = 'k' then logsScrollUp s
  else if c = 'h' then ({ s with scroll_x := s.scroll_x - 1 }, some .render)
  else if c = 'l' then ({ s with scroll_x := min (s.scroll_x + 1) 1 }, some .render)
  else if c = 'd' then logsHalfDown s
  else if c = 'u' then logsHalfUp s
  else if c = 'f' then logsFullDown s
  else if c = 'b' then logsFullUp s
  else if c = '/' then ({ s with mode := .search "" }, some .render)
  else if c = 'n' then nextMatch s
  else if c = 'N' then prevMatch s
  else (s, none)

/-- `LogsScreen::update`. -/
def LogsScreen.update (s : LogsScreen) (e : LEvent) : LogsScreen × Option LUpdateCommand :=
  match s.mode with
  | .normal =>
    match e with
    | .key .esc => (s, some .exitScreen)
    | .key .down => logsScrollDown s
    | .key .up => logsScrollUp s
    | .key .left => ({ s with scroll_x := s.scroll_x - 1 }, some .render)
    | .key .right => ({ s with scroll_x := min (s.scroll_x + 1) 1 }, some .render)
    | .key .pageDown => logsHalfDown s
    | .key .pageUp => logsHalfUp s
    | .key (.char c) => logsNormalChar s c
    | _ => (s, none)
  | .search q =>
    match e with
    | .key .esc => ({ s with mode := .normal }, some .render)
    | .key .enter => ({ s with mode := .normal }, some .render)
    | .key (.char c) => pushChar s q c
    | _ => (s, none)

/-- The data `LogsScreen::render` hands to the drawing primitives: the visible
log lines with their y coordinates, and the bottom status/query bar. -/
structure LogsRender where
  lines : List (Nat × Text)
  bottom : Text
  size : Nat × Nat
deriving DecidableEq

/-- `LogsScreen::render`: record the viewport size, then project the visible
slice of the log (`screen_height` lines from `scroll_y`) and the bottom bar. -/
def LogsScreen.render (s : LogsScreen) (rows cols : Nat) : LogsScreen × LogsRender :=
  let s' := { s with screen_width := some cols, screen_height := some (rows - 1) }
  let lines := ((s'.logs.drop s'.scroll_y).take (rows - 1)).enum.map fun p =>
    (p.1, Text.new p.2)
  let bottom :=
    match s'.mode with
    | .normal => Text.new ":"
    | .search q => Text.new ("/" ++ q)
  (s', { lines := lines, bottom := bottom, size := (cols, rows) })

/-! ## Theorems settling the claims -/

/-- `updateFirst` updates the first element satisfying the predicate. -/
theorem updateFirst_append (p : α → Bool) (f : α → α) (l₁ : List α) (x : α) (l₂ : List α)
    (h₁ : ∀ y ∈ l₁, p y = false) (hx : p x = true) :
    updateFirst p f (l₁ ++ x :: l₂) = some (l₁ ++ f x :: l₂) := by
  induction l₁ with
  | nil => simp [updateFirst, hx]
  | cons a l ih =>
    have ha : p a = false := h₁ a (List.mem_cons_self a l)
    simp [updateFirst, ha, ih fun y hy => h₁ y (List.mem_cons_of_mem a hy)]

/-- `updateFirst` finds nothing when no element satisfies the predicate. -/
theorem updateFirst_eq_none (p : α → Bool) (f : α → α) (l : List α)
    (h : ∀ y ∈ l, p y = false) : updateFirst p f l = none := by
  induction l with
  | nil => rfl
  | cons a l ih =>
    simp [updateFirst, h a (List.mem_cons_self a l),
      ih fun y hy => h y (List.mem_cons_of_mem a hy)]

/-- C1 (amended): a terminal event whose `package` and `test` both resolve
sets the test's `result` to the event's kind unconditionally — whatever the
previous value, including an already-set result, so the last terminal event
wins (the claim said the first one wins and later ones are no-ops). -/
theorem C1_amended (pre post : List Main.Package) (p : Main.Package)
    (tpre tpost : List Main.TestCase) (t : Main.TestCase)
    (pname tname : String) (a : Action) (r : TestResult)
    (ha : a.toTestResult? = some r)
    (hpre : ∀ q ∈ pre, q.name ≠ pname) (hp : p.name = pname)
    (htests : p.tests = tpre ++ t :: tpost)
    (htpre : ∀ u ∈ tpre, u.name ≠ tname) (htn : t.name = tname) :
    Main.pipe (pre ++ p :: post) ⟨some a, some pname, some tname, none⟩ =
      some (pre ++ { p with tests := tpre ++ { t with result := some r } :: tpost } :: post) := by
  have hbeq : ∀ u : Main.TestCase, ((some tname == some u.name) : Bool) = (tname == u.name) :=
    fun u => rfl
  have happ : Main.applyTerminal r pname (some tname) (pre ++ p :: post) =
      pre ++ { p with tests := tpre ++ { t with result := some r } :: tpost } :: post := by
    unfold Main.applyTerminal
    rw [updateFirst_append _ _ pre p post
      (fun y hy => beq_eq_false_iff_ne.mpr (hpre y hy)) (beq_iff_eq.mpr hp)]
    rw [htests, updateFirst_append _ _ tpre t tpost
      (fun u hu => by rw [hbeq]; exact beq_eq_false_iff_ne.mpr (Ne.symm (htpre u hu)))
      (by rw [hbeq]; exact beq_iff_eq.mpr htn.symm)]
    rfl
  cases a with
  | start => simp [Action.toTestResult?] at ha
  | run => simp [Action.toTestResult?] at ha
  | output => simp [Action.toTestResult?] at ha
  | pass =>
    simp only [Action.toTestResult?, Option.some.injEq] at ha
    subst ha
    exact congrArg some happ
  | fail =>
    simp only [Action.toTestResult?, Option.some.injEq] at ha
    subst ha
    exact congrArg some happ
  | skip =>
    simp only [Action.toTestResult?, Option.some.injEq] at ha
    subst ha
    exact congrArg some happ

/-- C1 (witness): the amended theorem at a concrete tree where `t1` already
holds `Pass` and a `Fail` terminal event overwrites it. -/
theorem C1_witness :
    Main.pipe [⟨"a", none, [⟨"t1", some .pass, []⟩], []⟩]
        ⟨some .fail, some "a", some "t1", none⟩ =
      some [⟨"a", none, [⟨"t1", some .fail, []⟩], []⟩] :=
  C1_amended [] [] ⟨"a", none, [⟨"t1", some .pass, []⟩], []⟩ [] [] ⟨"t1", some .pass, []⟩
    "a" "t1" .fail .fail rfl (by simp) rfl rfl (by simp) rfl

/-- C2 (amended): a terminal event whose `package` resolves but whose `test`
field does not resolve to any of that package's tests is not dropped: it falls
through to the package-level branch and sets the package's own `result` to the
event's kind (the claim said the event is silently dropped and the tree left
unchanged). -/
theorem C2_amended (pre post : List Main.Package) (p : Main.Package)
    (pname : String) (test? : Option String) (a : Action) (r : TestResult)
    (ha : a.toTestResult? = some r)
    (hpre : ∀ q ∈ pre, q.name ≠ pname) (hp : p.name = pname)
    (htests : ∀ u ∈ p.tests, test? ≠ some u.name) :
    Main.pipe (pre ++ p :: post) ⟨some a, some pname, test?, none⟩ =
      some (pre ++ { p with result := some r } :: post) := by
  have happ : Main.applyTerminal r pname test? (pre ++ p :: post) =
      pre ++ { p with result := some r } :: post := by
    unfold Main.applyTerminal
    rw [updateFirst_append _ _ pre p post
      (fun y hy => beq_eq_false_iff_ne.mpr (hpre y hy)) (beq_iff_eq.mpr hp)]
    rw [updateFirst_eq_none _ _ p.tests
      (fun u hu => beq_eq_false_iff_ne.mpr (htests u hu))]
    rfl
  cases a with
  | start => simp [Action.toTestResult?] at ha
  | run => simp [Action.toTestResult?] at ha
  | output => simp [Action.toTestResult?] at ha
  | pass =>
    simp only [Action.toTestResult?, Option.some.injEq] at ha
    subst ha
    exact congrArg some happ
  | fail =>
    simp only [Action.toTestResult?, Option.some.injEq] at ha
    subst ha
    exact congrArg some happ
  | skip =>
    simp only [Action.toTestResult?, Option.some.injEq] at ha
    subst ha
    exact congrArg some happ

/-- C2 (witness): the amended theorem at a concrete tree — a `Pass` for the
unknown test `nope` of package `a` sets the package's own result. -/
theorem C2_witness :
    Main.pipe [⟨"a", none, [⟨"t1", none, []⟩], []⟩]
        ⟨some .pass, some "a", some "nope", none⟩ =
      some [⟨"a", some .pass, [⟨"t1", none, []⟩], []⟩] :=
  C2_amended [] [] ⟨"a", none, [⟨"t1", none, []⟩], []⟩ "a" (some "nope") .pass .pass rfl
    (by simp) rfl (by simp)

/-- C1 (counterexample): the claim says a terminal event arriving after the
entity's result is set leaves it unchanged.  On a tree where test `t1` already
holds `Pass`, a later `Fail` terminal event overwrites it with `Fail`. -/
theorem C1_counterexample :
    Main.pipe [⟨"a", none, [⟨"t1", some .pass, []⟩], []⟩]
        ⟨some .fail, some "a", some "t1", none⟩ =
      some [⟨"a", none, [⟨"t1", some .fail, []⟩], []⟩] ∧
    some TestResult.fail ≠ some TestResult.pass :=
  ⟨by decide, by decide⟩

/-- C2 (counterexample): the claim says a terminal event whose `test` field
does not resolve inside the resolved package is dropped with the tree
unchanged.  On a package `a` (result unset, tests `[t1]`), a `Pass` event for
the unknown test `nope` instead sets the package's own result. -/
theorem C2_counterexample :
    Main.pipe [⟨"a", none, [⟨"t1", none, []⟩], []⟩]
        ⟨some .pass, some "a", some "nope", none⟩ =
      some [⟨"a", some .pass, [⟨"t1", none, []⟩], []⟩] ∧
    some TestResult.pass ≠ (none : Option TestResult) :=
  ⟨by decide, by decide⟩

/-- C3 (code bug): the match recorded for query `"ab"` against log line
`"xxab"` is `(0, 2..2)` — the source stores `start_idx..(needle.len())`, so the
range end is the query length `2`, not `start + length = 4` as the claim (and
any meaningful range) requires. -/
theorem C3_code_bug :
    recompute "ab" ["xxab"] = [(0, 2, 2)] ∧
    ((0, 2, 2) : Nat × Nat × Nat) ≠ (0, 2, 2 + 2) :=
  ⟨by decide, by decide⟩

/-- Any `ListItem.package p` in the visible list has `p` passing the result
filter (with unset results replaced by the default). -/
theorem mem_visible_package (s : TestsScreen) (p : Package)
    (h : ListItem.package p ∈ visible_list_items s) :
    is_test_visible s.result_filters (p.result.getD defaultResult) = true := by
  simp only [visible_list_items, List.mem_flatMap, List.mem_filter, List.mem_cons,
    List.mem_map] at h
  obtain ⟨q, ⟨_, hvis⟩, hmem⟩ := h
  rcases hmem with h1 | ⟨t, _, h2⟩
  · cases h1
    exact hvis
  · cases h2

/-- Any `ListItem.testCase t` in the visible list has `t` passing the result
filter (with unset results replaced by the default). -/
theorem mem_visible_testCase (s : TestsScreen) (t : TestCase)
    (h : ListItem.testCase t ∈ visible_list_items s) :
    is_test_visible s.result_filters (t.result.getD defaultResult) = true := by
  simp only [visible_list_items, List.mem_flatMap, List.mem_filter, List.mem_cons,
    List.mem_map] at h
  obtain ⟨q, ⟨_, _⟩, hmem⟩ := h
  rcases hmem with h1 | ⟨u, hu, h2⟩
  · cases h1
  · cases h2
    exact hu.2

/-- C4 (amended): an entity with unset `result` is filtered as if it carried
the default result kind; whenever that kind's filter flag is off and the filter
set is non-empty, every result-less Package and TestCase is excluded from the
flattened list (the claim said it is never excluded). -/
theorem C4_amended (s : TestsScreen) (hpass : s.result_filters.pass = false)
    (hne : s.result_filters.fail = true ∨ s.result_filters.skip = true) :
    (∀ p : Package, p.result = none → ListItem.package p ∉ visible_list_items s) ∧
    (∀ t : TestCase, t.result = none → ListItem.testCase t ∉ visible_list_items s) := by
  constructor
  · intro p hp hmem
    have hv := mem_visible_package s p hmem
    rw [hp] at hv
    rcases hfl : s.result_filters with ⟨fp, ff, fs⟩
    rw [hfl] at hv hpass hne
    simp only at hpass
    subst hpass
    rcases ff with _ | _ <;> rcases fs with _ | _ <;>
      simp_all [is_test_visible, defaultResult]
  · intro t ht hmem
    have hv := mem_visible_testCase s t hmem
    rw [ht] at hv
    rcases hfl : s.result_filters with ⟨fp, ff, fs⟩
    rw [hfl] at hv hpass hne
    simp only at hpass
    subst hpass
    rcases ff with _ | _ <;> rcases fs with _ | _ <;>
      simp_all [is_test_visible, defaultResult]

/-- C4 (counterexample): with only the Fail filter enabled, a package whose
result is still unset does not appear in the flattened list (the claim said it
always appears); with the empty filter it does appear. -/
theorem C4_counterexample :
    visible_list_items ⟨[⟨"a", none, none, [], []⟩], 0, 0, 0, ⟨false, true, false⟩⟩ = [] ∧
    visible_list_items ⟨[⟨"a", none, none, [], []⟩], 0, 0, 0, ⟨false, false, false⟩⟩ =
      [ListItem.package ⟨"a", none, none, [], []⟩] :=
  ⟨by decide, by decide⟩

/-- C4 (witness): the amended theorem applied to the one-package tree under the
Fail-only filter. -/
theorem C4_witness :
    ListItem.package ⟨"a", none, none, [], []⟩ ∉
      visible_list_items ⟨[⟨"a", none, none, [], []⟩], 0, 0, 0, ⟨false, true, false⟩⟩ :=
  (C4_amended ⟨[⟨"a", none, none, [], []⟩], 0, 0, 0, ⟨false, true, false⟩⟩ rfl
    (Or.inl rfl)).1 ⟨"a", none, none, [], []⟩ rfl

/-- C5 (amended): the `1`/`2`/`3` handlers flip the corresponding filter flag
and request a render, leaving everything else — in particular
`selected_index` — unchanged; no re-clamping against the new flattened length
takes place (the claim said the index is re-clamped). -/
theorem C5_amended (s : TestsScreen) :
    TestsScreen.update s (.key (.char '1')) =
      ({ s with result_filters := { s.result_filters with pass := !s.result_filters.pass } },
        some .render) ∧
    TestsScreen.update s (.key (.char '2')) =
      ({ s with result_filters := { s.result_filters with fail := !s.result_filters.fail } },
        some .render) ∧
    TestsScreen.update s (.key (.char '3')) =
      ({ s with result_filters := { s.result_filters with skip := !s.result_filters.skip } },
        some .render) :=
  ⟨rfl, rfl, rfl⟩

/-- C5 (counterexample): tree `[a (Pass), b (Fail)]`, empty filter,
`selected_index = 1`.  Toggling the Pass filter shrinks the flattened list to
length 1 but leaves `selected_index = 1`, which is neither a valid index of the
new list nor 0 (the claim said it always is). -/
theorem C5_counterexample :
    (TestsScreen.update
        ⟨[⟨"a", some .pass, none, [], []⟩, ⟨"b", some .fail, none, [], []⟩], 1, 0, 0,
          ⟨false, false, false⟩⟩ (.key (.char '1'))).1.selected_index = 1 ∧
    (visible_list_items
      (TestsScreen.update
        ⟨[⟨"a", some .pass, none, [], []⟩, ⟨"b", some .fail, none, [], []⟩], 1, 0, 0,
          ⟨false, false, false⟩⟩ (.key (.char '1'))).1).length = 1 ∧
    ¬(1 < 1) ∧ (1 : Nat) ≠ 0 :=
  ⟨by decide, by decide, by decide, by decide⟩

/-- C6 (amended): backspace during search entry is unhandled — it falls
through to the wildcard arm, leaving the whole screen state (query, matches,
current index) unchanged and returning no command (the claim said it removes
the last query character and recomputes the matches). -/
theorem C6_amended (s : LogsScreen) (q : String) (h : s.mode = .search q) :
    LogsScreen.update s (.key .backspace) = (s, none) := by
  simp only [LogsScreen.update, h]

/-- C6 (counterexample): in search mode with query `"ab"`, backspace leaves
the query `"ab"` (the claim said it becomes `"a"`) and produces no command. -/
theorem C6_counterexample :
    LogsScreen.update ⟨["ab"], 0, 0, none, none, .search "ab", ⟨[(0, 0, 2)], some 0⟩⟩
        (.key .backspace) =
      (⟨["ab"], 0, 0, none, none, .search "ab", ⟨[(0, 0, 2)], some 0⟩⟩, none) ∧
    Mode.search "ab" ≠ Mode.search "a" :=
  ⟨by decide, by decide⟩

/-- C6 (witness): the amended theorem applied to a concrete search-mode
screen. -/
theorem C6_witness :
    LogsScreen.update ⟨["ab"], 0, 0, none, none, .search "ab", ⟨[(0, 0, 2)], some 0⟩⟩
        (.key .backspace) =
      (⟨["ab"], 0, 0, none, none, .search "ab", ⟨[(0, 0, 2)], some 0⟩⟩, none) :=
  C6_amended ⟨["ab"], 0, 0, none, none, .search "ab", ⟨[(0, 0, 2)], some 0⟩⟩ "ab" rfl

/-- C7 (confirmed): in search-entry mode both Esc (cancel) and Enter (commit)
only set the mode back to `Normal` — the search result (matches and current
index) and every other field are untouched — and afterwards the `n`/`N`
commands still step `current_index` through the existing matches (clamped
up, saturating down) over the unchanged match list. -/
theorem C7_commit_cancel (s : LogsScreen) (q : String) (h : s.mode = .search q) :
    LogsScreen.update s (.key .esc) = ({ s with mode := .normal }, some .render) ∧
    LogsScreen.update s (.key .enter) = ({ s with mode := .normal }, some .render) ∧
    ∀ i, s.search_result.current_index = some i →
      (LogsScreen.update { s with mode := .normal }
          (.key (.char 'n'))).1.search_result.current_index =
        some (min (i + 1) (s.search_result.matches'.length - 1)) ∧
      (LogsScreen.update { s with mode := .normal }
          (.key (.char 'N'))).1.search_result.current_index = some (i - 1) ∧
      (LogsScreen.update { s with mode := .normal }
          (.key (.char 'n'))).1.search_result.matches' = s.search_result.matches' := by
  obtain ⟨lg, sx, sy, w, hgt, m, ms, ci⟩ := s
  obtain rfl : m = .search q := h
  refine ⟨rfl, rfl, ?_⟩
  intro i hi
  obtain rfl : ci = some i := hi
  exact ⟨rfl, rfl, rfl⟩

/-- C7 (witness): the theorem applied to a one-match search screen with
query `"x"`. -/
theorem C7_witness :
    LogsScreen.update ⟨["x"], 0, 0, none, none, .search "x", ⟨[(0, 0, 1)], some 0⟩⟩
        (.key .esc) =
      (⟨["x"], 0, 0, none, none, .normal, ⟨[(0, 0, 1)], some 0⟩⟩, some .render) ∧
    (LogsScreen.update ⟨["x"], 0, 0, none, none, .normal, ⟨[(0, 0, 1)], some 0⟩⟩
        (.key (.char 'n'))).1.search_result.current_index = some 0 :=
  ⟨(C7_commit_cancel ⟨["x"], 0, 0, none, none, .search "x", ⟨[(0, 0, 1)], some 0⟩⟩ "x" rfl).1,
   ((C7_commit_cancel ⟨["x"], 0, 0, none, none, .search "x", ⟨[(0, 0, 1)], some 0⟩⟩ "x"
      rfl).2.2 0 rfl).1⟩

/-- Filtering packages and tests only removes items: the filtered flattening
is a sublist of the flattening of everything. -/
theorem flatMap_filter_sublist (P : Package → Bool) (Q : TestCase → Bool)
    (pkgs : List Package) :
    List.Sublist
      ((pkgs.filter P).flatMap fun p =>
        ListItem.package p :: (p.tests.filter Q).map ListItem.testCase)
      (pkgs.flatMap fun p => ListItem.package p :: p.tests.map ListItem.testCase) := by
  induction pkgs with
  | nil => simp
  | cons p ps ih =>
    simp only [List.filter_cons]
    by_cases hp : P p
    · simp only [hp, if_true, List.flatMap_cons]
      exact (((List.filter_sublist _).map _).cons₂ _).append ih
    · simp only [hp, Bool.false_eq_true, if_false, List.flatMap_cons]
      exact ih.trans (List.sublist_append_right _ _)

/-- C8 (confirmed): for every state, the flattened list under its filter is a
sublist — same items, same relative order — of the flattened list under the
empty filter, and in particular is no longer. -/
theorem C8_filtered_sublist (s : TestsScreen) :
    List.Sublist (visible_list_items s)
      (visible_list_items { s with result_filters := ⟨false, false, false⟩ }) ∧
    (visible_list_items s).length ≤
      (visible_list_items { s with result_filters := ⟨false, false, false⟩ }).length := by
  have hall : ∀ r, is_test_visible ⟨false, false, false⟩ r = true := fun r => by
    cases r <;> rfl
  obtain ⟨pkgs, si, sx, sy, fl⟩ := s
  have hR : visible_list_items (TestsScreen.mk pkgs si sx sy ⟨false, false, false⟩) =
      pkgs.flatMap fun p => ListItem.package p :: p.tests.map ListItem.testCase := by
    simp only [visible_list_items, hall, List.filter_true]
  have hsub : List.Sublist (visible_list_items (TestsScreen.mk pkgs si sx sy fl))
      (pkgs.flatMap fun p => ListItem.package p :: p.tests.map ListItem.testCase) :=
    flatMap_filter_sublist _ _ pkgs
  refine ⟨?_, ?_⟩
  · show List.Sublist (visible_list_items (TestsScreen.mk pkgs si sx sy fl))
      (visible_list_items (TestsScreen.mk pkgs si sx sy ⟨false, false, false⟩))
    rw [hR]
    exact hsub
  · show (visible_list_items (TestsScreen.mk pkgs si sx sy fl)).length ≤
      (visible_list_items (TestsScreen.mk pkgs si sx sy ⟨false, false, false⟩)).length
    rw [hR]
    exact hsub.length_le

/-- The auto-scroll adjustment reaches a fixpoint after one application
whenever the viewport has at least the two reserved rows. -/
theorem autoScrollY_fixpoint (selected scroll rows : Nat) (h : 2 ≤ rows) :
    autoScrollY selected (autoScrollY selected scroll rows) rows =
      autoScrollY selected scroll rows := by
  unfold autoScrollY
  split_ifs <;> omega

/-- C9 (confirmed): with a viewport of at least the two reserved rows,
rendering is idempotent on both screens — the second render returns the same
adjusted state (in particular the same scroll position, the only state render
touches) and the same drawn output as the first. -/
theorem C9_render_idempotent (ts : TestsScreen) (ls : LogsScreen) (rows cols : Nat)
    (h : 2 ≤ rows) :
    TestsScreen.render (TestsScreen.render ts rows cols).1 rows cols =
      TestsScreen.render ts rows cols ∧
    LogsScreen.render (LogsScreen.render ls rows cols).1 rows cols =
      LogsScreen.render ls rows cols := by
  constructor
  · obtain ⟨pkgs, si, sx, sy, fl⟩ := ts
    simp only [TestsScreen.render, autoScrollY_fixpoint si sy rows h]
  · obtain ⟨lg, sx, sy, w, hgt, m, sr⟩ := ls
    simp only [LogsScreen.render]

/-- C9 (witness): idempotence at a concrete tree, log screen and 3×5
viewport. -/
theorem C9_witness :
    TestsScreen.render
        (TestsScreen.render ⟨[⟨"a", some .pass, none, [], []⟩], 0, 0, 0,
          ⟨false, false, false⟩⟩ 3 5).1 3 5 =
      TestsScreen.render ⟨[⟨"a", some .pass, none, [], []⟩], 0, 0, 0,
        ⟨false, false, false⟩⟩ 3 5 ∧
    LogsScreen.render (LogsScreen.render (LogsScreen.new ["x", "y"]) 3 5).1 3 5 =
      LogsScreen.render (LogsScreen.new ["x", "y"]) 3 5 :=
  C9_render_idempotent ⟨[⟨"a", some .pass, none, [], []⟩], 0, 0, 0,
    ⟨false, false, false⟩⟩ (LogsScreen.new ["x", "y"]) 3 5 (by decide)

/-- The log-search state invariant of claim C10: whenever `current_index` is
set it indexes into `matches`. -/
def searchInvB (s : LogsScreen) : Bool :=
  match s.search_result.current_index with
  | some i => decide (i < s.search_result.matches'.length)
  | none => true

/-- Propositional form of `searchInvB`. -/
def SearchInv (s : LogsScreen) : Prop := searchInvB s = true

/-- C10 (confirmed): the invariant `current_index = some i → i < len matches`
holds for a fresh log screen and is preserved by every update event, and under
it both direct-indexing sites (`n` clamps up to `min (i+1) (len-1)`, `N`
saturates down to `i-1`) stay within bounds, so `matches[current_index]` never
panics. -/
theorem C10_search_invariant (logs : List String) (s : LogsScreen) (e : LEvent)
    (hs : SearchInv s) :
    SearchInv (LogsScreen.new logs) ∧ SearchInv (LogsScreen.update s e).1 ∧
    ∀ i, s.search_result.current_index = some i →
      min (i + 1) (s.search_result.matches'.length - 1) <
        s.search_result.matches'.length ∧
      i - 1 < s.search_result.matches'.length := by
  obtain ⟨lg, sx, sy, w, hgt, m, ms, ci⟩ := s
  refine ⟨rfl, ?_, ?_⟩
  · cases m with
    | normal =>
      cases e with
      | other => exact hs
      | key k =>
        cases k with
        | esc => exact hs
        | enter => exact hs
        | down => exact hs
        | up => exact hs
        | left => exact hs
        | right => exact hs
        | backspace => exact hs
        | pageDown => cases hgt <;> exact hs
        | pageUp => cases hgt <;> exact hs
        | char c =>
          show SearchInv (logsNormalChar (LogsScreen.mk lg sx sy w hgt .normal ⟨ms, ci⟩) c).1
          unfold logsNormalChar
          by_cases h1 : c = 'j'
          · rw [if_pos h1]; exact hs
          rw [if_neg h1]
          by_cases h2 : c = 'k'
          · rw [if_pos h2]; exact hs
          rw [if_neg h2]
          by_cases h3 : c = 'h'
          · rw [if_pos h3]; exact hs
          rw [if_neg h3]
          by_cases h4 : c = 'l'
          · rw [if_pos h4]; exact hs
          rw [if_neg h4]
          by_cases h5 : c = 'd'
          · rw [if_pos h5]; cases hgt <;> exact hs
          rw [if_neg h5]
          by_cases h6 : c = 'u'
          · rw [if_pos h6]; cases hgt <;> exact hs
          rw [if_neg h6]
          by_cases h7 : c = 'f'
          · rw [if_pos h7]; cases hgt <;> exact hs
          rw [if_neg h7]
          by_cases h8 : c = 'b'
          · rw [if_pos h8]; cases hgt <;> exact hs
          rw [if_neg h8]
          by_cases h9 : c = '/'
          · rw [if_pos h9]; exact hs
          rw [if_neg h9]
          by_cases h10 : c = 'n'
          · rw [if_pos h10]
            cases ci with
            | none => exact hs
            | some j =>
              have hj : j < ms.length := by
                simpa [SearchInv, searchInvB] using hs
              show decide (min (j + 1) (ms.length - 1) < ms.length) = true
              rw [decide_eq_true_eq]
              omega
          rw [if_neg h10]
          by_cases h11 : c = 'N'
          · rw [if_pos h11]
            cases ci with
            | none => exact hs
            | some j =>
              have hj : j < ms.length := by
                simpa [SearchInv, searchInvB] using hs
              show decide (j - 1 < ms.length) = true
              rw [decide_eq_true_eq]
              omega
          rw [if_neg h11]
          exact hs
    | search q =>
      cases e with
      | other => exact hs
      | key k =>
        cases k with
        | esc => exact hs
        | enter => exact hs
        | char c =>
          show SearchInv (pushChar (LogsScreen.mk lg sx sy w hgt (.search q) ⟨ms, ci⟩) q c).1
          unfold pushChar
          dsimp only
          generalize recompute (q.push c) lg = r
          cases r with
          | nil => rfl
          | cons hd tl =>
            show decide (0 < (hd :: tl).length) = true
            simp
        | down => exact hs
        | up => exact hs
        | left => exact hs
        | right => exact hs
        | pageDown => exact hs
        | pageUp => exact hs
        | backspace => exact hs
  · intro i hi
    obtain rfl : ci = some i := hi
    have hj : i < ms.length := by
      simpa [SearchInv, searchInvB] using hs
    show min (i + 1) (ms.length - 1) < ms.length ∧ i - 1 < ms.length
    omega

/-- C10 (witness): the theorem applied to a concrete one-match screen (current
index 0) under the `n` key. -/
theorem C10_witness :
    SearchInv (LogsScreen.new ["x"]) ∧
    SearchInv (LogsScreen.update
      ⟨["ab"], 0, 0, none, none, .normal, ⟨[(0, 0, 2)], some 0⟩⟩ (.key (.char 'n'))).1 ∧
    min (0 + 1) ([((0 : Nat), (0 : Nat), (2 : Nat))].length - 1) <
      [((0 : Nat), (0 : Nat), (2 : Nat))].length ∧
    (0 : Nat) - 1 < [((0 : Nat), (0 : Nat), (2 : Nat))].length :=
  ⟨(C10_search_invariant ["x"]
      ⟨["ab"], 0, 0, none, none, .normal, ⟨[(0, 0, 2)], some 0⟩⟩ (.key (.char 'n'))
      (by rfl)).1,
   (C10_search_invariant ["x"]
      ⟨["ab"], 0, 0, none, none, .normal, ⟨[(0, 0, 2)], some 0⟩⟩ (.key (.char 'n'))
      (by rfl)).2.1,
   (C10_search_invariant ["x"]
      ⟨["ab"], 0, 0, none, none, .normal, ⟨[(0, 0, 2)], some 0⟩⟩ (.key (.char 'n'))
      (by rfl)).2.2 0 rfl⟩

end ZjGoTests
